import Mathlib

/-!
# Verification of `conway.py`

A shallow embedding of the Conway's Game of Life implementation in
`src/conway.py`, together with theorems settling the specification claims.

Modelling conventions:
* A Python `Cell` (lines 21-42) stores `alive` (an int that is always 0 or 1,
  modelled as `Bool`) and its redundant coordinates `xpos`, `ypos`.
* The board (line 58-65) is a tuple of rows of cells, modelled as
  `List (List Cell)`.
* Python slicing `l[a:b]` with non-negative bounds is `(l.take b).drop a`;
  out-of-range bounds clip, exactly as in Python.
* Python ints are modelled as `Int` where subtraction can occur
  (`neighbours`), and as `Nat` for counters and indices that the source keeps
  non-negative.
-/

namespace Conway

/-- A cell of the grid (src/conway.py lines 21-32).  `alive` models the 0/1
int; the random initialisation of line 30 is modelled where boards are built
(`mkBoard`, `cellAliveDraw`). -/
structure Cell where
  alive : Bool
  xpos : Nat
  ypos : Nat
deriving DecidableEq

/-- The board object (src/conway.py lines 45-67), restricted to the grid part:
`width`, `height` and the tuple-of-tuples of cells.  The `age` counter and the
`states` history of the same object are modelled separately by `Sim`. -/
structure Board where
  width : Nat
  height : Nat
  board : List (List Cell)
deriving DecidableEq

/-- Python slicing `l[a:b]`: elements at indices `a, ..., b-1`, clipping at the
length.  In `neighbours` both bounds are non-negative by the time the slice
runs (the `== -1` adjustments have already fired), so `Int.toNat` is exact. -/
def pySlice (l : List α) (a b : Int) : List α := (l.take b.toNat).drop a.toNat

/-- The integer value of `cell.alive` as summed on line 103. -/
def aliveInt (c : Cell) : Int := if c.alive then 1 else 0

/-- `left = cell.xpos - 1`, bumped to 0 when it is `-1` (lines 88, 92-93). -/
def nbLeft (c : Cell) : Int :=
  if (c.xpos : Int) - 1 = -1 then (c.xpos : Int) - 1 + 1 else (c.xpos : Int) - 1

/-- `right = cell.xpos + 1`, decremented when it equals `width`
(lines 88, 94-95). -/
def nbRight (b : Board) (c : Cell) : Int :=
  if (c.xpos : Int) + 1 = (b.width : Int) then (c.xpos : Int) + 1 - 1
  else (c.xpos : Int) + 1

/-- `top = cell.ypos - 1`, bumped to 0 when it is `-1` (lines 89, 97-98). -/
def nbTop (c : Cell) : Int :=
  if (c.ypos : Int) - 1 = -1 then (c.ypos : Int) - 1 + 1 else (c.ypos : Int) - 1

/-- `bottom = cell.ypos + 1`, decremented when it equals `self.width`
(lines 89, 99-100).  The source compares against `width`, not `height`;
the embedding reproduces that comparison literally. -/
def nbBottom (b : Board) (c : Cell) : Int :=
  if (c.ypos : Int) + 1 = (b.width : Int) then (c.ypos : Int) + 1 - 1
  else (c.ypos : Int) + 1

/-- `get_subgrid(left, right, top, bottom)` (lines 80-86):
`[row[left : right + 1] for row in self.board[top : bottom + 1]]`. -/
def nbSub (b : Board) (c : Cell) : List (List Cell) :=
  (pySlice b.board (nbTop c) (nbBottom b c + 1)).map
    (fun row => pySlice row (nbLeft c) (nbRight b c + 1))

/-- `Board.neighbours` (src/conway.py lines 77-103):
`sum(cell.alive for row in sub for cell in row) - cell.alive`. -/
def neighbours (b : Board) (c : Cell) : Int :=
  (((nbSub b c).flatten).map aliveInt).sum - aliveInt c

/-- `Cell.die` (lines 34-37): the conditional is a no-op refinement, the net
effect is `alive = 0`. -/
def cellDie (c : Cell) : Cell := { c with alive := false }

/-- `Cell.regen` (lines 39-42): net effect `alive = 1`. -/
def cellRegen (c : Cell) : Cell := { c with alive := true }

/-- Functional update of one list entry; models the in-place mutation of the
cell object `new_board[i]` (out-of-range indices never occur on well-formed
boards). -/
def listModify (l : List α) (i : Nat) (f : α → α) : List α :=
  match l, i with
  | [], _ => []
  | a :: t, 0 => f a :: t
  | a :: t, i + 1 => a :: listModify t i f

/-- Mutation of `new_board[y][x]` as a functional update. -/
def modify2d (bd : List (List Cell)) (y x : Nat) (f : Cell → Cell) : List (List Cell) :=
  listModify bd y (fun row => listModify row x f)

/-- The body of the double loop of `Board.advance` (lines 114-129) for one
cell `c` of the pre-advance board `b`, acting on the working copy `nb`
(`new_board`).  Neighbour counts are read from `b`, never from `nb`. -/
def advanceStep (b : Board) (nb : List (List Cell)) (c : Cell) : List (List Cell) :=
  if c.alive then
    if neighbours b c = 2 ∨ neighbours b c = 3 then nb
    else modify2d nb c.ypos c.xpos cellDie
  else
    if neighbours b c = 3 then modify2d nb c.ypos c.xpos cellRegen
    else nb

/-- The grid transformation of `Board.advance` (lines 105-131):
`new_board = deepcopy(self.board)` (a value copy here), then the double loop
over the cells of the old board, then `self.board = new_board`.  The history
and termination bookkeeping of lines 134-142 is modelled by `simAdvance`. -/
def advance (b : Board) : Board :=
  { b with board := (b.board.flatten).foldl (advanceStep b) b.board }

/-- Indexing `board[y][x]`, `none` when out of range. -/
def get2d (bd : List (List Cell)) (y x : Nat) : Option Cell :=
  (bd[y]?).bind (fun row => row[x]?)

/-- Well-formedness of a board as built by `Board.__init__` (lines 58-65):
`height` rows of `width` cells, the cell at row `y`, column `x` carrying
coordinates `(x, y)`. -/
def WF (b : Board) : Prop :=
  b.board.length = b.height ∧
  ∀ y, (hy : y < b.board.length) →
    (b.board[y].length = b.width ∧
      ∀ x, (hx : x < b.board[y].length) →
        (b.board[y][x].xpos = x ∧ b.board[y][x].ypos = y))

instance (b : Board) : Decidable (WF b) := by
  unfold WF; infer_instance

/-- Board construction (lines 58-65) with the per-cell aliveness draw
abstracted into `aliveAt` (line 30 makes it a random draw; see
`cellAliveDraw`): row `y` holds `Cell(x, y, density)` for `x < width`. -/
def mkBoard (width height : Nat) (aliveAt : Nat → Nat → Bool) : Board :=
  { width := width, height := height,
    board := (List.range height).map (fun y =>
      (List.range width).map (fun x => ⟨aliveAt x y, x, y⟩)) }

/-- The `alive` matrix of a board, used to compare two boards by cell state
alone. -/
def aliveMatrix (b : Board) : List (List Bool) :=
  b.board.map (fun row => row.map (fun c => c.alive))

/-- `Cell.__init__` line 30: `alive = 0 if randint(0, 100) > chance else 1`,
as a function of the drawn value `r` (uniform on `{0, ..., 100}`). -/
def cellAliveDraw (r : Nat) (chance : Nat) : Bool :=
  if r > chance then false else true

/-- The outcomes of `randint(0, 100)` (101 equiprobable values) that make the
cell alive at the given `chance`. -/
def aliveOutcomes (chance : Nat) : Finset Nat :=
  (Finset.range 101).filter (fun r => cellAliveDraw r chance = true)

/-- The neighbour count the specification asks for (section 4.1): alive cells
of the 3x3 block centered on `(x, y)`, excluding the center, clipped to the
grid bounds in both axes.  Stated from the specification's words, for
comparison with the source's `neighbours`. -/
def specNeighbours (b : Board) (x y : Nat) : Nat :=
  ((List.range b.height).map (fun (yp : Nat) =>
    ((List.range b.width).filter (fun (xp : Nat) =>
      decide (((xp : Int) - x).natAbs ≤ 1) &&
      decide (((yp : Int) - y).natAbs ≤ 1) &&
      !(decide (xp = x) && decide (yp = y)) &&
      (match get2d b.board yp xp with
       | some c => c.alive
       | none => false))).length)).sum

/-! ## Simulation controller state (history and termination)

`Board.__init__` lines 66-67 set `age = 0` and `states = (hash(board),)`;
`Board.advance` lines 134-142 increment `age`, append the new board's
fingerprint, truncate to the last 30 entries and fire `end()` when
`age > 30 and len(set(states)) < 5`.  The fingerprint value appended each
step is taken as a parameter here; its computation (`hash(self.board)`) is
modelled by `boardFingerprint` below. -/

/-- The `age` and `states` fields of the Python `Board` object. -/
structure Sim where
  age : Nat
  states : List Nat
deriving DecidableEq

/-- Python `l[-n:]`: the last `n` entries (all of them when fewer). -/
def pyTakeLast (n : Nat) (l : List α) : List α := l.drop (l.length - n)

/-- `len(set(l))`: the number of distinct values in `l`. -/
def pyDistinct (l : List Nat) : Nat := l.dedup.length

/-- Lines 66-67 of `Board.__init__`: age 0, history holding the initial
board's fingerprint. -/
def simInit (fp0 : Nat) : Sim := ⟨0, [fp0]⟩

/-- Lines 134-142 of `Board.advance`: increment `age`, append the new
fingerprint `fp`, keep the last 30 states, and report whether `end()` fires
(`age > 30 and len(set(states)) < 5`). -/
def simAdvance (s : Sim) (fp : Nat) : Sim × Bool :=
  let age := s.age + 1
  let states := pyTakeLast 30 (s.states ++ [fp])
  (⟨age, states⟩, decide (age > 30) && decide (pyDistinct states < 5))

/-- The controller state after a sequence of advances appending the given
fingerprints, starting from a fresh board whose fingerprint is `fp0`. -/
def runSim (fp0 : Nat) (fps : List Nat) : Sim :=
  fps.foldl (fun s fp => (simAdvance s fp).1) (simInit fp0)

/-! ## Fingerprints (`hash(self.board)`, lines 67 and 135)

`Cell` defines neither `__hash__` nor `__eq__`, so CPython hashes each cell
with the identity-based default `object.__hash__` (the object's `id` rotated
right by 4 bits, modulo `2^64`); the `alive`, `xpos` and `ypos` fields never
enter the computation.  The board is a tuple of tuples, hashed with CPython's
xxHash-style tuple combination.  Both are modelled here on `Nat` modulo
`2^64` (CPython's signed representation and its `-1 ↦ -2` remapping do not
affect the equality/inequality facts proved below). -/

/-- `2^64`, the modulus of CPython's hash arithmetic on a 64-bit platform. -/
def hashMod : Nat := 18446744073709551616

/-- CPython's default `object.__hash__`: the pointer value rotated right by
4 bits. -/
def pyObjectHash (id : Nat) : Nat :=
  ((id >>> 4) ||| (id <<< 60)) % hashMod

def xxPrime1 : Nat := 11400714785074694791

def xxPrime2 : Nat := 14029467366897019727

def xxPrime5 : Nat := 2870177450012600261

/-- Rotate a 64-bit lane left by 31. -/
def xxRotate (x : Nat) : Nat := ((x <<< 31) ||| (x >>> 33)) % hashMod

/-- CPython 3.8+ tuple hash (`tuplehash` in Objects/tupleobject.c), over the
already-computed hashes of the items. -/
def pyTupleHash (hs : List Nat) : Nat :=
  let acc := hs.foldl (fun acc h => (xxRotate ((acc + h * xxPrime2) % hashMod) * xxPrime1) % hashMod) xxPrime5
  (acc + (hs.length ^^^ (xxPrime5 ^^^ 3527539))) % hashMod

/-- A cell object as CPython sees it for hashing: the cell value paired with
the object's identity (`id`). -/
structure CellObj where
  cell : Cell
  oid : Nat
deriving DecidableEq

/-- `hash(self.board)` (lines 67 and 135): the tuple-of-tuples hash of the
identity-based hashes of the cell objects.  A function of the object
identities only — no field of any cell is read. -/
def boardFingerprint (bd : List (List CellObj)) : Nat :=
  pyTupleHash (bd.map (fun row => pyTupleHash (row.map (fun c => pyObjectHash c.oid))))

/-- The observable cell states of a board of cell objects. -/
def objStates (bd : List (List CellObj)) : List (List Bool) :=
  bd.map (fun row => row.map (fun c => c.cell.alive))

/-! ## Command-line parsing (lines 157-164) -/

/-- The `DENSITY` default of line 18. -/
def DENSITY : Nat := 25

/-- `str.isnumeric` restricted to ASCII input: non-empty and all digits.
(Python also accepts non-ASCII numeric characters; those are outside this
model.) -/
def pyIsNumeric (s : String) : Bool := s.length != 0 && s.data.all Char.isDigit

/-- `int(s)` for a string of ASCII digits. -/
def pyStrToInt (s : String) : Nat :=
  s.data.foldl (fun n c => 10 * n + (c.toNat - 48)) 0

/-- Lines 160-164: with one positional argument, accept it as the density iff
it is numeric and strictly between 0 and 100, otherwise raise `ValueError`
before any board is built; with no argument keep the default 25. -/
def parseDensity : Option String → Except String Nat
  | none => Except.ok DENSITY
  | some s =>
    if pyIsNumeric s && decide (0 < pyStrToInt s) && decide (pyStrToInt s < 100) then
      Except.ok (pyStrToInt s)
    else
      Except.error "Density must be between 0 and 100 (exclusive)"

/-! ## Concrete boards used as inputs -/

/-- `Board.__init__` with the `randint(0, 100)` draws supplied explicitly, one
independent draw per cell: cell `(x, y)` is alive iff its draw is at most
`chance` (line 30). -/
def mkBoardRandom (width height chance : Nat) (draw : Nat → Nat → Nat) : Board :=
  mkBoard width height (fun x y => cellAliveDraw (draw x y) chance)

/-- The 5x5 horizontal blinker: cells `(1,2)`, `(2,2)`, `(3,2)` alive. -/
def blinker : Board :=
  mkBoard 5 5 (fun x y => decide ((x = 1 ∨ x = 2 ∨ x = 3) ∧ y = 2))

/-- A 1x3 board whose middle cell `(0,1)` is alive: the input on which the
boundary handling of `neighbours` loses a row. -/
def bugBoard : Board := mkBoard 1 3 (fun _ y => decide (y = 1))

/-! ## History lemmas -/

theorem length_pyTakeLast (n : Nat) (l : List α) :
    (pyTakeLast n l).length = min n l.length := by
  simp only [pyTakeLast, List.length_drop]
  omega

theorem pyTakeLast_append_last (n : Nat) (hn : 1 ≤ n) (l : List α) (a : α) :
    pyTakeLast n (pyTakeLast n l ++ [a]) = pyTakeLast n (l ++ [a]) := by
  unfold pyTakeLast
  rw [List.drop_append_eq_append_drop, List.drop_append_eq_append_drop, List.drop_drop]
  simp only [List.length_append, List.length_drop, List.length_singleton]
  congr 1
  · congr 1
    omega
  · congr 1
    omega

theorem pyTakeLast_getLast_concat (n : Nat) (hn : 1 ≤ n) (l : List α) (a : α) :
    (pyTakeLast n (l ++ [a])).getLast? = some a := by
  unfold pyTakeLast
  rw [List.drop_append_eq_append_drop]
  have hk : (l ++ [a]).length - n - l.length = 0 := by
    simp only [List.length_append, List.length_singleton]
    omega
  rw [hk, List.drop_zero, List.getLast?_concat]

theorem runSim_append_last (fp0 fp : Nat) (fps : List Nat) :
    runSim fp0 (fps ++ [fp]) = (simAdvance (runSim fp0 fps) fp).1 := by
  simp [runSim, List.foldl_append]

theorem runSim_states (fp0 : Nat) (fps : List Nat) :
    (runSim fp0 fps).states = pyTakeLast 30 (fp0 :: fps) := by
  induction fps using List.reverseRecOn with
  | nil => simp [runSim, simInit, pyTakeLast]
  | append_singleton fps fp ih =>
    rw [runSim_append_last]
    show pyTakeLast 30 ((runSim fp0 fps).states ++ [fp]) = _
    rw [ih, pyTakeLast_append_last 30 (by omega), ← List.cons_append]

theorem mkBoard_WF (width height : Nat) (aliveAt : Nat → Nat → Bool) :
    WF (mkBoard width height aliveAt) := by
  refine ⟨by simp [mkBoard], ?_⟩
  intro y hy
  simp only [mkBoard, List.length_map, List.length_range] at hy
  simp [mkBoard, List.getElem_map, List.getElem_range, hy]

theorem cellAliveDraw_eq_true (r chance : Nat) :
    cellAliveDraw r chance = true ↔ r ≤ chance := by
  unfold cellAliveDraw
  split
  · simp
    omega
  · simp
    omega

theorem aliveOutcomes_card (P : Nat) (hP : P ≤ 100) :
    (aliveOutcomes P).card = P + 1 := by
  have h : aliveOutcomes P = Finset.range (P + 1) := by
    ext r
    simp only [aliveOutcomes, Finset.mem_filter, Finset.mem_range, cellAliveDraw_eq_true]
    omega
  rw [h, Finset.card_range]

/-! ## Update lemmas for `advance` -/

theorem listModify_getElem? (l : List α) (i j : Nat) (f : α → α) :
    (listModify l i f)[j]? = if i = j then (l[j]?).map f else l[j]? := by
  induction l generalizing i j with
  | nil => simp [listModify]
  | cons a t ih =>
    cases i with
    | zero =>
      cases j with
      | zero => simp [listModify]
      | succ j => simp [listModify]
    | succ i =>
      cases j with
      | zero => simp [listModify]
      | succ j => simp [listModify, ih]

theorem get2d_modify2d (bd : List (List Cell)) (y x y' x' : Nat) (f : Cell → Cell) :
    get2d (modify2d bd y x f) y' x' =
      if y = y' ∧ x = x' then (get2d bd y' x').map f else get2d bd y' x' := by
  unfold get2d modify2d
  by_cases hy : y = y'
  · subst hy
    cases hrow : bd[y]? with
    | none => simp [hrow, listModify_getElem?]
    | some row =>
      by_cases hx : x = x'
      · simp [hrow, listModify_getElem?, hx]
      · simp [hrow, listModify_getElem?, hx]
  · have hne : ¬(y = y' ∧ x = x') := fun hc => hy hc.1
    simp [hy, hne, listModify_getElem?]

theorem advanceStep_get2d_ne (b : Board) (nb : List (List Cell)) (c : Cell)
    (y x : Nat) (h : ¬(c.ypos = y ∧ c.xpos = x)) :
    get2d (advanceStep b nb c) y x = get2d nb y x := by
  unfold advanceStep
  split
  · split
    · rfl
    · rw [get2d_modify2d, if_neg h]
  · split
    · rw [get2d_modify2d, if_neg h]
    · rfl

theorem foldl_advanceStep_no_touch (b : Board) (L : List Cell)
    (nb : List (List Cell)) (y x : Nat)
    (h : ∀ c ∈ L, ¬(c.ypos = y ∧ c.xpos = x)) :
    get2d (L.foldl (advanceStep b) nb) y x = get2d nb y x := by
  induction L generalizing nb with
  | nil => rfl
  | cons c L ih =>
    rw [List.foldl_cons,
      ih _ (fun c' hc' => h c' (List.mem_cons_of_mem _ hc')),
      advanceStep_get2d_ne b nb c y x (h c (List.mem_cons_self _ _))]

theorem flatten_decomp (bd : List (List Cell)) (y x : Nat)
    (hy : y < bd.length) (hx : x < bd[y].length) :
    bd.flatten =
      ((bd.take y).flatten ++ bd[y].take x) ++
        bd[y][x] :: (bd[y].drop (x + 1) ++ (bd.drop (y + 1)).flatten) := by
  have hrow : bd[y] = bd[y].take x ++ bd[y][x] :: bd[y].drop (x + 1) := by
    conv_lhs => rw [← List.take_append_drop x bd[y]]
    rw [List.drop_eq_getElem_cons hx]
  calc bd.flatten
      = (bd.take y ++ bd[y] :: bd.drop (y + 1)).flatten := by
        rw [← List.drop_eq_getElem_cons hy, List.take_append_drop]
    _ = (bd.take y).flatten ++ (bd[y] ++ (bd.drop (y + 1)).flatten) := by
        rw [List.flatten_append, List.flatten_cons]
    _ = (bd.take y).flatten ++
          ((bd[y].take x ++ bd[y][x] :: bd[y].drop (x + 1)) ++ (bd.drop (y + 1)).flatten) := by
        rw [← hrow]
    _ = _ := by
        simp only [List.append_assoc, List.cons_append]

theorem WF_mem_flatten_take (b : Board) (hwf : WF b) {c : Cell} {y : Nat}
    (hc : c ∈ ((b.board.take y).flatten)) : c.ypos < y := by
  rw [List.mem_flatten] at hc
  obtain ⟨row, hrow, hcrow⟩ := hc
  rw [List.mem_iff_getElem] at hrow
  obtain ⟨i, hi, hrow_eq⟩ := hrow
  have hi2 : i < y ∧ i < b.board.length := by
    simp only [List.length_take] at hi
    omega
  rw [List.getElem_take] at hrow_eq
  subst hrow_eq
  rw [List.mem_iff_getElem] at hcrow
  obtain ⟨j, hj, hc_eq⟩ := hcrow
  subst hc_eq
  have := ((hwf.2 i hi2.2).2 j hj).2
  omega

theorem WF_mem_flatten_drop (b : Board) (hwf : WF b) {c : Cell} {y : Nat}
    (hc : c ∈ ((b.board.drop (y + 1)).flatten)) : y < c.ypos := by
  rw [List.mem_flatten] at hc
  obtain ⟨row, hrow, hcrow⟩ := hc
  rw [List.mem_iff_getElem] at hrow
  obtain ⟨i, hi, hrow_eq⟩ := hrow
  have hi2 : y + 1 + i < b.board.length := by
    simp only [List.length_drop] at hi
    omega
  rw [List.getElem_drop] at hrow_eq
  subst hrow_eq
  rw [List.mem_iff_getElem] at hcrow
  obtain ⟨j, hj, hc_eq⟩ := hcrow
  subst hc_eq
  have := ((hwf.2 (y + 1 + i) hi2).2 j hj).2
  omega

theorem WF_mem_row_take (b : Board) (hwf : WF b) {c : Cell} {y x : Nat}
    (hy : y < b.board.length) (hc : c ∈ b.board[y].take x) : c.xpos < x := by
  rw [List.mem_iff_getElem] at hc
  obtain ⟨j, hj, hc_eq⟩ := hc
  have hj2 : j < x ∧ j < b.board[y].length := by
    simp only [List.length_take] at hj
    omega
  rw [List.getElem_take] at hc_eq
  subst hc_eq
  have := ((hwf.2 y hy).2 j hj2.2).1
  omega

theorem WF_mem_row_drop (b : Board) (hwf : WF b) {c : Cell} {y x : Nat}
    (hy : y < b.board.length) (hc : c ∈ b.board[y].drop (x + 1)) : x < c.xpos := by
  rw [List.mem_iff_getElem] at hc
  obtain ⟨j, hj, hc_eq⟩ := hc
  have hj2 : x + 1 + j < b.board[y].length := by
    simp only [List.length_drop] at hj
    omega
  rw [List.getElem_drop] at hc_eq
  subst hc_eq
  have := ((hwf.2 y hy).2 (x + 1 + j) hj2).1
  omega

/-! ## Bounds for `neighbours` -/

theorem sumAlive_nonneg (l : List Cell) : 0 ≤ (l.map aliveInt).sum := by
  apply List.sum_nonneg
  intro v hv
  rw [List.mem_map] at hv
  obtain ⟨c, _, rfl⟩ := hv
  unfold aliveInt
  split <;> omega

theorem sumAlive_le_length (l : List Cell) : (l.map aliveInt).sum ≤ (l.length : Int) := by
  induction l with
  | nil => simp
  | cons c t ih =>
    simp only [List.map_cons, List.sum_cons, List.length_cons]
    have hc : aliveInt c ≤ 1 := by
      unfold aliveInt
      split <;> omega
    push_cast
    omega

theorem sumAlive_mem_bounds {c : Cell} {l : List Cell} (h : c ∈ l) :
    aliveInt c ≤ (l.map aliveInt).sum ∧
    (l.map aliveInt).sum ≤ aliveInt c + (l.length : Int) - 1 := by
  obtain ⟨s, t, rfl⟩ := List.append_of_mem h
  simp only [List.map_append, List.sum_append, List.map_cons, List.sum_cons,
    List.length_append, List.length_cons]
  have hs1 := sumAlive_nonneg s
  have ht1 := sumAlive_nonneg t
  have hs2 := sumAlive_le_length s
  have ht2 := sumAlive_le_length t
  constructor <;> push_cast <;> omega

theorem length_pySlice (l : List α) (a b : Int) :
    (pySlice l a b).length = min b.toNat l.length - a.toNat := by
  simp [pySlice]

theorem getElem_mem_pySlice (l : List α) (a b : Int) (i : Nat)
    (h1 : a.toNat ≤ i) (h2 : i < b.toNat) (h3 : i < l.length) :
    l[i] ∈ pySlice l a b := by
  rw [List.mem_iff_getElem?]
  refine ⟨i - a.toNat, ?_⟩
  unfold pySlice
  rw [List.getElem?_drop]
  have hidx : a.toNat + (i - a.toNat) = i := by omega
  rw [hidx, List.getElem?_take_of_lt h2, List.getElem?_eq_getElem h3]

theorem nbLeft_toNat (c : Cell) : (nbLeft c).toNat = c.xpos - 1 := by
  unfold nbLeft
  split <;> omega

theorem nbTop_toNat (c : Cell) : (nbTop c).toNat = c.ypos - 1 := by
  unfold nbTop
  split <;> omega

theorem nbRight_toNat (b : Board) (c : Cell) :
    (nbRight b c + 1).toNat = if c.xpos + 1 = b.width then c.xpos + 1 else c.xpos + 2 := by
  unfold nbRight
  split_ifs <;> omega

theorem nbBottom_toNat (b : Board) (c : Cell) :
    (nbBottom b c + 1).toNat = if c.ypos + 1 = b.width then c.ypos + 1 else c.ypos + 2 := by
  unfold nbBottom
  split_ifs <;> omega

theorem WF_row_length_of_mem (b : Board) (hwf : WF b) {row : List Cell}
    (h : row ∈ b.board) : row.length = b.width := by
  rw [List.mem_iff_getElem] at h
  obtain ⟨i, hi, rfl⟩ := h
  exact (hwf.2 i hi).1

theorem nbSub_row_length (b : Board) (hwf : WF b) (c : Cell) {row' : List Cell}
    (h : row' ∈ nbSub b c) :
    row'.length = min (nbRight b c + 1).toNat b.width - (nbLeft c).toNat := by
  rw [nbSub, List.mem_map] at h
  obtain ⟨row, hrow, rfl⟩ := h
  have hmem : row ∈ b.board :=
    List.mem_of_mem_take (List.mem_of_mem_drop hrow)
  rw [length_pySlice, WF_row_length_of_mem b hwf hmem]

theorem nbSub_length (b : Board) (c : Cell) :
    (nbSub b c).length = min (nbBottom b c + 1).toNat b.board.length - (nbTop c).toNat := by
  rw [nbSub, List.length_map, length_pySlice]

theorem nbSub_flatten_length_le (b : Board) (hwf : WF b) (c : Cell) :
    ((nbSub b c).flatten).length ≤
      (min (nbBottom b c + 1).toNat b.board.length - (nbTop c).toNat) *
      (min (nbRight b c + 1).toNat b.width - (nbLeft c).toNat) := by
  rw [List.length_flatten]
  calc ((nbSub b c).map List.length).sum
      ≤ ((nbSub b c).map List.length).length •
          (min (nbRight b c + 1).toNat b.width - (nbLeft c).toNat) := by
        apply List.sum_le_card_nsmul
        intro v hv
        rw [List.mem_map] at hv
        obtain ⟨row', hrow', rfl⟩ := hv
        rw [nbSub_row_length b hwf c hrow']
    _ = _ := by
        rw [List.length_map, nbSub_length, smul_eq_mul]

theorem mem_nbSub_flatten (b : Board) (hwf : WF b) (x y : Nat)
    (hx : x < b.width) (hy' : y < b.board.length) (hx' : x < b.board[y].length)
    (hcx : (b.board[y][x]).xpos = x) (hcy : (b.board[y][x]).ypos = y) :
    b.board[y][x] ∈ (nbSub b (b.board[y][x])).flatten := by
  rw [List.mem_flatten]
  refine ⟨pySlice b.board[y] (nbLeft b.board[y][x]) (nbRight b b.board[y][x] + 1), ?_, ?_⟩
  · rw [nbSub]
    apply List.mem_map_of_mem
    apply getElem_mem_pySlice b.board (nbTop b.board[y][x]) (nbBottom b b.board[y][x] + 1) y
    · rw [nbTop_toNat, hcy]
      omega
    · rw [nbBottom_toNat, hcy]
      split_ifs <;> omega
  · apply getElem_mem_pySlice b.board[y] _ _ x
    · rw [nbLeft_toNat, hcx]
      omega
    · rw [nbRight_toNat, hcx]
      split_ifs <;> omega

theorem neighbours_le_box (b : Board) (hwf : WF b) (x y : Nat)
    (hx : x < b.width) (hy : y < b.height) (c : Cell)
    (hc : get2d b.board y x = some c) :
    0 ≤ neighbours b c ∧
    neighbours b c ≤
      (((min (if y + 1 = b.width then y + 1 else y + 2) b.height - (y - 1)) *
        (min (if x + 1 = b.width then x + 1 else x + 2) b.width - (x - 1)) : Nat) : Int) - 1 := by
  have hy' : y < b.board.length := by rw [hwf.1]; exact hy
  have hx' : x < b.board[y].length := by rw [(hwf.2 y hy').1]; exact hx
  have hc0 : get2d b.board y x = some b.board[y][x] := by
    simp [get2d, List.getElem?_eq_getElem, hy', hx']
  have hceq : b.board[y][x] = c := by
    rw [hc0] at hc
    exact Option.some.inj hc
  have hcoords := (hwf.2 y hy').2 x hx'
  have hmem : c ∈ (nbSub b c).flatten := by
    rw [← hceq]
    exact mem_nbSub_flatten b hwf x y hx hy' hx' hcoords.1 hcoords.2
  have hbounds := sumAlive_mem_bounds hmem
  have hlen := nbSub_flatten_length_le b hwf c
  have hcx : c.xpos = x := by rw [← hceq]; exact hcoords.1
  have hcy : c.ypos = y := by rw [← hceq]; exact hcoords.2
  rw [nbRight_toNat, nbBottom_toNat, nbLeft_toNat, nbTop_toNat, hcx, hcy, hwf.1] at hlen
  unfold neighbours
  constructor
  · omega
  · have h2 := hbounds.2
    omega

/-! ## Claim theorems -/

/-- Claim C7: for any well-formed board, `neighbours` of the in-bounds cell
at `(x, y)` is an integer in [0, 8]; it is at most 3 when the cell is a
corner and at most 5 when it is a non-corner edge cell. -/
theorem neighbours_range (b : Board) (hwf : WF b) (x y : Nat)
    (hx : x < b.width) (hy : y < b.height) (c : Cell)
    (hc : get2d b.board y x = some c) :
    0 ≤ neighbours b c ∧ neighbours b c ≤ 8 ∧
    (((x = 0 ∨ x = b.width - 1) ∧ (y = 0 ∨ y = b.height - 1)) →
      neighbours b c ≤ 3) ∧
    ((((x = 0 ∨ x = b.width - 1) ∧ ¬(y = 0 ∨ y = b.height - 1)) ∨
      (¬(x = 0 ∨ x = b.width - 1) ∧ (y = 0 ∨ y = b.height - 1))) →
      neighbours b c ≤ 5) := by
  obtain ⟨h0, hle⟩ := neighbours_le_box b hwf x y hx hy c hc
  have hR3 : min (if y + 1 = b.width then y + 1 else y + 2) b.height - (y - 1) ≤ 3 := by
    split_ifs <;> omega
  have hC3 : min (if x + 1 = b.width then x + 1 else x + 2) b.width - (x - 1) ≤ 3 := by
    split_ifs <;> omega
  have hR2 : (y = 0 ∨ y = b.height - 1) →
      min (if y + 1 = b.width then y + 1 else y + 2) b.height - (y - 1) ≤ 2 := by
    intro h
    split_ifs <;> omega
  have hC2 : (x = 0 ∨ x = b.width - 1) →
      min (if x + 1 = b.width then x + 1 else x + 2) b.width - (x - 1) ≤ 2 := by
    intro h
    split_ifs <;> omega
  refine ⟨h0, ?_, ?_, ?_⟩
  · have := Nat.mul_le_mul hR3 hC3
    omega
  · rintro ⟨hxb, hyb⟩
    have := Nat.mul_le_mul (hR2 hyb) (hC2 hxb)
    omega
  · rintro (⟨hxb, hyb⟩ | ⟨hxb, hyb⟩)
    · have := Nat.mul_le_mul hR3 (hC2 hxb)
      omega
    · have := Nat.mul_le_mul (hR2 hyb) hC3
      omega

/-- Witness for C7 at the corner cell `(0, 0)` of the blinker board. -/
theorem neighbours_range_witness :
    0 ≤ neighbours blinker ⟨false, 0, 0⟩ ∧ neighbours blinker ⟨false, 0, 0⟩ ≤ 8 ∧
    ((((0 : Nat) = 0 ∨ (0 : Nat) = blinker.width - 1) ∧
      ((0 : Nat) = 0 ∨ (0 : Nat) = blinker.height - 1)) →
      neighbours blinker ⟨false, 0, 0⟩ ≤ 3) ∧
    (((((0 : Nat) = 0 ∨ (0 : Nat) = blinker.width - 1) ∧
       ¬((0 : Nat) = 0 ∨ (0 : Nat) = blinker.height - 1)) ∨
      (¬((0 : Nat) = 0 ∨ (0 : Nat) = blinker.width - 1) ∧
       ((0 : Nat) = 0 ∨ (0 : Nat) = blinker.height - 1))) →
      neighbours blinker ⟨false, 0, 0⟩ ≤ 5) :=
  neighbours_range blinker (by decide) 0 0 (by decide) (by decide) ⟨false, 0, 0⟩ (by decide)

/-- Claim C4: after a step, the termination rule (`end()` on lines 141-142)
fires exactly when the post-step generation counter exceeds 30 and the number
of distinct values among the fingerprints retained in the history (the last
30) is fewer than 5; when either condition fails the simulation keeps
running. -/
theorem advance_terminates_iff (s : Sim) (fp : Nat) :
    (simAdvance s fp).2 = true ↔
      ((simAdvance s fp).1.age > 30 ∧ pyDistinct (simAdvance s fp).1.states < 5) := by
  simp [simAdvance]

/-- Claim C6: over any sequence of advances the history never exceeds 30
entries, it is exactly the trailing 30-window of the appended fingerprints in
order (most recent last), and after 100 advances its length is exactly 30. -/
theorem history_bounded (fp0 : Nat) (fps : List Nat) :
    (runSim fp0 fps).states.length ≤ 30 ∧
    (runSim fp0 fps).states = pyTakeLast 30 (fp0 :: fps) ∧
    (fps.length = 100 → (runSim fp0 fps).states.length = 30) := by
  refine ⟨?_, runSim_states fp0 fps, ?_⟩
  · rw [runSim_states, length_pyTakeLast]
    omega
  · intro h
    rw [runSim_states, length_pyTakeLast]
    simp [h]

/-- Witness for C6 at a concrete 100-advance run. -/
theorem history_bounded_witness :
    (runSim 0 (List.replicate 100 0)).states.length = 30 :=
  (history_bounded 0 (List.replicate 100 0)).2.2 (by simp)

/-- Claim C10: the history holds the initial board's fingerprint already at
construction; after `n` advances its length is `min (n + 1) 30`; and after
any advance the last entry is the fingerprint appended by that advance. -/
theorem history_initial_and_last (fp0 fp : Nat) (fps : List Nat) :
    (runSim fp0 []).states = [fp0] ∧
    (runSim fp0 fps).states.length = min (fps.length + 1) 30 ∧
    (runSim fp0 (fps ++ [fp])).states.getLast? = some fp := by
  refine ⟨rfl, ?_, ?_⟩
  · rw [runSim_states, length_pyTakeLast]
    simp only [List.length_cons]
    omega
  · rw [runSim_states, ← List.cons_append]
    exact pyTakeLast_getLast_concat 30 (by omega) _ fp

/-- Claim C1 (supporting theorem): the fingerprint `hash(self.board)` is a
function of the cell objects' identities only.  Two one-cell boards in
identical (all-dead) cell states but made of distinct cell objects (CPython
ids 16 and 32) produce different fingerprints. -/
theorem fingerprint_depends_on_identity :
    objStates [[⟨⟨false, 0, 0⟩, 16⟩]] = objStates [[⟨⟨false, 0, 0⟩, 32⟩]] ∧
    boardFingerprint [[⟨⟨false, 0, 0⟩, 16⟩]] ≠ boardFingerprint [[⟨⟨false, 0, 0⟩, 32⟩]] :=
  ⟨rfl, by decide⟩

/-- Claim C2 (supporting theorem): on the well-formed 1x3 board whose only
alive cell is `(0, 1)`, the source's `neighbours` of the corner cell `(0, 0)`
returns 0, while the clipped 3x3 count demanded by the specification is 1:
line 99's comparison of `bottom` against `width` drops the row below the
cell whenever `ypos + 1 = width < height`. -/
theorem neighbours_boundary_mismatch :
    WF bugBoard ∧
    get2d bugBoard.board 0 0 = some ⟨false, 0, 0⟩ ∧
    get2d bugBoard.board 1 0 = some ⟨true, 0, 1⟩ ∧
    neighbours bugBoard ⟨false, 0, 0⟩ = 0 ∧
    specNeighbours bugBoard 0 0 = 1 := by
  decide

/-- Claim C8: the horizontal blinker on a 5x5 grid becomes the vertical
three-cell line `(2,1)`, `(2,2)`, `(2,3)` after one advance and returns to
the original horizontal configuration after a second advance. -/
theorem blinker_period_two :
    aliveMatrix (advance blinker) =
      [[false, false, false, false, false],
       [false, false, true,  false, false],
       [false, false, true,  false, false],
       [false, false, true,  false, false],
       [false, false, false, false, false]] ∧
    aliveMatrix (advance (advance blinker)) = aliveMatrix blinker := by
  decide

/-- Claim C9: a present density argument that is non-numeric, zero, or at
least 100 makes the program fail with the fatal `ValueError` of line 163
(raised before the board of line 166 is ever constructed), and an absent
argument leaves the default density 25. -/
theorem density_argument_validation (s : String)
    (h : pyIsNumeric s = false ∨ pyStrToInt s = 0 ∨ 100 ≤ pyStrToInt s) :
    parseDensity (some s) = Except.error "Density must be between 0 and 100 (exclusive)" ∧
    parseDensity none = Except.ok 25 := by
  refine ⟨?_, rfl⟩
  have hc : (pyIsNumeric s && decide (0 < pyStrToInt s) && decide (pyStrToInt s < 100)) = false := by
    rcases h with h | h | h
    · simp [h]
    · simp [h]
    · simp
      omega
  simp [parseDensity, hc]

/-- Witness for C9 at the concrete argument "101". -/
theorem density_argument_validation_witness :
    parseDensity (some "101") = Except.error "Density must be between 0 and 100 (exclusive)" ∧
    parseDensity none = Except.ok 25 :=
  density_argument_validation "101" (Or.inr (Or.inr (by decide)))

/-- Claim C5 (counterexample): at density 25 a cell is alive for 26 of the
101 equiprobable outcomes of `randint(0, 100)`, so its aliveness probability
is 26/101, not 25/100 as the claim states. -/
theorem cell_alive_probability_off_by_one :
    (0 < 25 ∧ 25 < 100) ∧
    (aliveOutcomes 25).card = 26 ∧
    ((aliveOutcomes 25).card : ℚ) / 101 ≠ (25 : ℚ) / 100 := by
  have hcard : (aliveOutcomes 25).card = 26 := by decide
  refine ⟨⟨by omega, by omega⟩, hcard, ?_⟩
  rw [hcard]
  norm_num

/-- Claim C5 (amended): construction yields a well-formed W-by-H grid whose
cell `(x, y)` is alive exactly when its own independent `randint(0, 100)`
draw is at most P, which happens with probability (P+1)/101 (P+1 of the 101
equiprobable outcomes). -/
theorem cell_alive_probability (W H P : Nat) (draw : Nat → Nat → Nat)
    (hW : 0 < W) (hH : 0 < H) (hP0 : 0 < P) (hP1 : P < 100) :
    (mkBoardRandom W H P draw).width = W ∧
    (mkBoardRandom W H P draw).height = H ∧
    WF (mkBoardRandom W H P draw) ∧
    (∀ x y, x < W → y < H →
      get2d (mkBoardRandom W H P draw).board y x =
        some ⟨cellAliveDraw (draw x y) P, x, y⟩) ∧
    (∀ r, cellAliveDraw r P = true ↔ r ≤ P) ∧
    (aliveOutcomes P).card = P + 1 := by
  refine ⟨rfl, rfl, mkBoard_WF W H _, ?_, fun r => cellAliveDraw_eq_true r P, aliveOutcomes_card P (by omega)⟩
  intro x y hx hy
  simp [mkBoardRandom, mkBoard, get2d, List.getElem?_map, List.getElem?_range, hx, hy]

theorem advanceStep_get2d_self (b : Board) (nb : List (List Cell)) (c : Cell)
    (hc : get2d nb c.ypos c.xpos = some c) :
    get2d (advanceStep b nb c) c.ypos c.xpos =
      some { c with alive :=
        (if c.alive then decide (neighbours b c = 2 ∨ neighbours b c = 3)
         else decide (neighbours b c = 3)) } := by
  obtain ⟨al, cx, cy⟩ := c
  cases al with
  | true =>
    by_cases hn : neighbours b ⟨true, cx, cy⟩ = 2 ∨ neighbours b ⟨true, cx, cy⟩ = 3
    · unfold advanceStep
      rw [if_pos rfl, if_pos hn, hc]
      simp [hn]
    · unfold advanceStep
      rw [if_pos rfl, if_neg hn, get2d_modify2d, if_pos ⟨rfl, rfl⟩, hc]
      simp [cellDie, hn]
  | false =>
    by_cases hn : neighbours b ⟨false, cx, cy⟩ = 3
    · unfold advanceStep
      rw [if_neg (fun h => Bool.noConfusion h), if_pos hn, get2d_modify2d,
        if_pos ⟨rfl, rfl⟩, hc]
      simp [cellRegen, hn]
    · unfold advanceStep
      rw [if_neg (fun h => Bool.noConfusion h), if_neg hn, hc]
      simp [hn]

/-- Claim C3: after one `advance`, every in-bounds cell holds the state
determined by its own pre-advance state and its neighbour count on the
pre-advance board alone — alive survives exactly with 2 or 3 neighbours,
dead becomes alive exactly with 3 — so no update made during the advance
influences any other cell of the same advance. -/
theorem advance_life_rule (b : Board) (hwf : WF b) (x y : Nat)
    (hx : x < b.width) (hy : y < b.height) :
    get2d (advance b).board y x =
      (get2d b.board y x).map (fun c =>
        { c with alive :=
            if c.alive then decide (neighbours b c = 2 ∨ neighbours b c = 3)
            else decide (neighbours b c = 3) }) := by
  have hy' : y < b.board.length := by rw [hwf.1]; exact hy
  have hx' : x < b.board[y].length := by rw [(hwf.2 y hy').1]; exact hx
  have hc0 : get2d b.board y x = some b.board[y][x] := by
    simp [get2d, List.getElem?_eq_getElem, hy', hx']
  have hcoords := (hwf.2 y hy').2 x hx'
  have h1 : ∀ c' ∈ (b.board.take y).flatten ++ b.board[y].take x,
      ¬(c'.ypos = y ∧ c'.xpos = x) := by
    intro c' hc' hcc
    rcases List.mem_append.mp hc' with hl | hr
    · have := WF_mem_flatten_take b hwf hl
      omega
    · have := WF_mem_row_take b hwf hy' hr
      omega
  have h2 : ∀ c' ∈ b.board[y].drop (x + 1) ++ (b.board.drop (y + 1)).flatten,
      ¬(c'.ypos = y ∧ c'.xpos = x) := by
    intro c' hc' hcc
    rcases List.mem_append.mp hc' with hl | hr
    · have := WF_mem_row_drop b hwf hy' hl
      omega
    · have := WF_mem_flatten_drop b hwf hr
      omega
  have hnb : get2d (((b.board.take y).flatten ++ b.board[y].take x).foldl
      (advanceStep b) b.board) y x = some b.board[y][x] := by
    rw [foldl_advanceStep_no_touch b _ _ y x h1]
    exact hc0
  show get2d ((b.board.flatten).foldl (advanceStep b) b.board) y x = _
  rw [flatten_decomp b.board y x hy' hx', List.foldl_append, List.foldl_cons,
    foldl_advanceStep_no_touch b _ _ y x h2, hc0, Option.map_some']
  generalize ((b.board.take y).flatten ++ b.board[y].take x).foldl
      (advanceStep b) b.board = nb1 at hnb ⊢
  generalize b.board[y][x] = c₀ at hnb hcoords ⊢
  rw [← hcoords.1, ← hcoords.2] at hnb ⊢
  exact advanceStep_get2d_self b nb1 c₀ hnb

/-- Witness for C3 on the concrete blinker board at the cell `(2, 1)`. -/
theorem advance_life_rule_witness :
    get2d (advance blinker).board 1 2 =
      (get2d blinker.board 1 2).map (fun c =>
        { c with alive :=
            if c.alive then decide (neighbours blinker c = 2 ∨ neighbours blinker c = 3)
            else decide (neighbours blinker c = 3) }) :=
  advance_life_rule blinker (by decide) 2 1 (by decide) (by decide)

/-- Witness for C5 (amended) at W = H = 1, P = 25, all draws 0. -/
theorem cell_alive_probability_witness :
    (aliveOutcomes 25).card = 25 + 1 :=
  (cell_alive_probability 1 1 25 (fun _ _ => 0) (by omega) (by omega) (by omega) (by omega)).2.2.2.2.2

end Conway
